import Mathlib

/-!
Shallow embedding of the bump allocator from src/src/main.rs.

Addresses and sizes are Rust usize values, modelled as natural numbers
taken modulo 2 ^ 64 wherever the source arithmetic can wrap.  The
allocator state mirrors the three usize fields of struct BumpAllocator;
alloc mirrors BumpAllocator::alloc (with the Layout argument split into
its size and align components, Layout guaranteeing align is a power of
two), dealloc mirrors the empty GlobalAlloc::dealloc body, and align_up
mirrors the const fn align_up.
-/

/-- The usize modulus: the allocator targets a 64-bit address space. -/
def usizeMod : Nat := 2 ^ 64

/-- Bitwise complement of a 64-bit word: models the Rust expression !x
on usize, which flips all 64 bits, so x + !x = 2 ^ 64 - 1. -/
def usize_not (x : Nat) : Nat := usizeMod - 1 - x % usizeMod

/-- Models const fn align_up: (addr + align - 1) & !(align - 1), with
usize wrapping on the addition.  Callers always pass align ≥ 1 (Layout
alignments are powers of two), so the Nat subtraction align - 1 agrees
with the source. -/
def align_up (addr align : Nat) : Nat :=
  ((addr + align - 1) % usizeMod) &&& usize_not (align - 1)

/-- The three usize fields of struct BumpAllocator. -/
structure BumpAllocator where
  heap_start : Nat
  heap_end : Nat
  next : Nat
deriving DecidableEq

/-- Models BumpAllocator::new.  It is a const fn only ever invoked in a
const context (the GLOBAL_ALLOCATOR static), where Rust rejects
overflow of heap_start + heap_size at compile time, so the sum is exact. -/
def BumpAllocator.new (heap_start heap_size : Nat) : BumpAllocator :=
  { heap_start := heap_start, heap_end := heap_start + heap_size, next := heap_start }

/-- Models BumpAllocator::alloc.  Returns the address handed out (none
models the null pointer returned on exhaustion) together with the
updated allocator.  alloc_start + size wraps at 2 ^ 64 exactly as the
usize addition in the source does in release mode. -/
def BumpAllocator.alloc (s : BumpAllocator) (size align : Nat) : Option Nat × BumpAllocator :=
  let alloc_start := align_up s.next align
  let alloc_end := (alloc_start + size) % usizeMod
  if s.heap_end < alloc_end then
    (none, s)
  else
    (some alloc_start, { s with next := alloc_end })

/-- Models GlobalAlloc::dealloc for BumpAllocator: an empty body. -/
def BumpAllocator.dealloc (s : BumpAllocator) (_ptr _size _align : Nat) : BumpAllocator :=
  s

/-- The raw pointer value produced by alloc: null is address 0. -/
def ptrVal : Option Nat → Nat
  | none => 0
  | some p => p

/-- The documented allocator invariant: heap_start ≤ next ≤ heap_end. -/
abbrev AllocInv (s : BumpAllocator) : Prop :=
  s.heap_start ≤ s.next ∧ s.next ≤ s.heap_end

/-- Run a list of (size, align) requests, collecting the (address, size)
pairs of the successful allocations in order. -/
def allocSeq : BumpAllocator → List (Nat × Nat) → List (Nat × Nat)
  | _, [] => []
  | s, r :: rest =>
    match BumpAllocator.alloc s r.1 r.2 with
    | (some p, s') => (p, r.1) :: allocSeq s' rest
    | (none, s') => allocSeq s' rest

/-! Arithmetic toolkit: the bit-masking identity behind align_up and the
round-up-to-multiple properties it implies. -/

theorem and_two_pow_sub_two_pow (x k n : Nat) (hk : k ≤ n) (hx : x < 2 ^ n) :
    x &&& (2 ^ n - 2 ^ k) = 2 ^ k * (x / 2 ^ k) := by
  have hmask : 2 ^ n - 2 ^ k = (2 ^ (n - k) - 1) <<< k := by
    rw [Nat.shiftLeft_eq, Nat.sub_mul, one_mul, ← Nat.pow_add, Nat.sub_add_cancel hk]
  have hrhs : 2 ^ k * (x / 2 ^ k) = (x >>> k) <<< k := by
    rw [Nat.shiftRight_eq_div_pow, Nat.shiftLeft_eq, Nat.mul_comm]
  rw [hmask, hrhs]
  apply Nat.eq_of_testBit_eq
  intro i
  rw [Nat.testBit_and, Nat.testBit_shiftLeft, Nat.testBit_shiftLeft, Nat.testBit_shiftRight,
    Nat.testBit_two_pow_sub_one]
  by_cases hki : k ≤ i
  · have hik : k + (i - k) = i := by omega
    rw [hik]
    by_cases hin : i < n
    · have h1 : i - k < n - k := by omega
      simp [hki, h1]
    · have h1 : x.testBit i = false :=
        Nat.testBit_lt_two_pow (lt_of_lt_of_le hx (Nat.pow_le_pow_right (by omega) (by omega)))
      simp [h1]
  · have h1 : ¬ (i ≥ k) := hki
    simp [h1]

theorem le_roundUp (a m : Nat) (ha : 0 < a) : m ≤ a * ((m + a - 1) / a) := by
  rcases Nat.eq_zero_or_pos m with hm | hm
  · subst hm; exact Nat.zero_le _
  · have he : m + a - 1 = (m - 1) + a := by omega
    rw [he, Nat.add_div_right _ ha, Nat.mul_succ]
    have h1 := Nat.div_add_mod (m - 1) a
    have h2 : (m - 1) % a < a := Nat.mod_lt _ ha
    obtain ⟨t, ht⟩ : ∃ t, t = a * ((m - 1) / a) := ⟨_, rfl⟩
    rw [← ht] at h1 ⊢
    omega

theorem roundUp_lt (a m : Nat) (ha : 0 < a) : a * ((m + a - 1) / a) < m + a := by
  have h1 := Nat.div_add_mod (m + a - 1) a
  obtain ⟨t, ht⟩ : ∃ t, t = a * ((m + a - 1) / a) := ⟨_, rfl⟩
  rw [← ht] at h1 ⊢
  omega

theorem usize_not_two_pow_sub_one (k : Nat) (hk : k ≤ 64) :
    usize_not (2 ^ k - 1) = usizeMod - 2 ^ k := by
  have hpos : 0 < 2 ^ k := Nat.pos_pow_of_pos k (by omega)
  have hle : 2 ^ k ≤ usizeMod := by
    unfold usizeMod
    exact Nat.pow_le_pow_right (by omega) hk
  have h1 : 2 ^ k - 1 < usizeMod := by omega
  unfold usize_not
  rw [Nat.mod_eq_of_lt h1]
  omega

theorem align_up_pow2 (addr k : Nat) (hk : k ≤ 64) :
    align_up addr (2 ^ k) = 2 ^ k * (((addr + 2 ^ k - 1) % usizeMod) / 2 ^ k) := by
  unfold align_up
  rw [usize_not_two_pow_sub_one k hk]
  exact and_two_pow_sub_two_pow _ k 64 hk (Nat.mod_lt _ (Nat.pos_pow_of_pos 64 (by omega)))

theorem align_up_pow2_exact (addr k : Nat) (hov : addr + 2 ^ k - 1 < usizeMod) :
    align_up addr (2 ^ k) = 2 ^ k * ((addr + 2 ^ k - 1) / 2 ^ k) := by
  have hpos : 0 < 2 ^ k := Nat.pos_pow_of_pos k (by omega)
  have hle : 2 ^ k ≤ 2 ^ 64 := by
    have := hov
    unfold usizeMod at this
    omega
  have hk : k ≤ 64 := (Nat.pow_le_pow_iff_right (by omega)).mp hle
  rw [align_up_pow2 addr k hk, Nat.mod_eq_of_lt hov]

theorem align_up_lt_usizeMod (addr align : Nat) : align_up addr align < usizeMod := by
  have h1 : align_up addr align ≤ usize_not (align - 1) := Nat.and_le_right
  have h2 : usize_not (align - 1) ≤ usizeMod - 1 := Nat.sub_le _ _
  have h3 : 0 < usizeMod := Nat.pos_pow_of_pos 64 (by omega)
  omega

/-! Characterizations of alloc. -/

theorem alloc_eq (s : BumpAllocator) (size align : Nat) :
    s.alloc size align =
      if s.heap_end < (align_up s.next align + size) % usizeMod then (none, s)
      else (some (align_up s.next align),
            { s with next := (align_up s.next align + size) % usizeMod }) := rfl

theorem alloc_success_core (s : BumpAllocator) (size k p : Nat) (s' : BumpAllocator)
    (hov : align_up s.next (2 ^ k) + size < usizeMod)
    (h : s.alloc size (2 ^ k) = (some p, s')) :
    p = align_up s.next (2 ^ k) ∧
    s' = { s with next := align_up s.next (2 ^ k) + size } ∧
    align_up s.next (2 ^ k) + size ≤ s.heap_end := by
  rw [alloc_eq, Nat.mod_eq_of_lt hov] at h
  by_cases hc : s.heap_end < align_up s.next (2 ^ k) + size
  · rw [if_pos hc] at h
    cases h
  · rw [if_neg hc] at h
    injection h with h1 h2
    injection h1 with h1
    exact ⟨h1.symm, h2.symm, Nat.le_of_not_lt hc⟩

/-- C3 (amended): align_up rounds up to the alignment, stays below
addr + align, and never falls below addr, provided addr + align - 1 does
not overflow the 64-bit address space (at overflow the wrapping source
computation violates the lower bound). -/
theorem align_up_correct (addr align k : Nat) (hk : align = 2 ^ k)
    (hov : addr + align - 1 < usizeMod) :
    align_up addr align % align = 0 ∧ addr ≤ align_up addr align ∧
    align_up addr align < addr + align := by
  subst hk
  rw [align_up_pow2_exact addr k hov]
  exact ⟨Nat.mul_mod_right _ _, le_roundUp _ _ (Nat.pos_pow_of_pos k (by omega)),
    roundUp_lt _ _ (Nat.pos_pow_of_pos k (by omega))⟩

/-- C3 witness: the amended statement at addr 0x1003, align 4. -/
theorem align_up_correct_witness :
    align_up 0x1003 4 % 4 = 0 ∧ 0x1003 ≤ align_up 0x1003 4 ∧
    align_up 0x1003 4 < 0x1003 + 4 :=
  align_up_correct 0x1003 4 2 (by decide) (by decide)

/-- C3 counterexample: at addr = 2 ^ 64 - 1 and align = 2 (a power of two)
the wrapping computation returns 0, which is not at least addr. -/
theorem align_up_correct_counterexample :
    (2 : Nat) = 2 ^ 1 ∧
    ¬ (align_up (2 ^ 64 - 1) 2 % 2 = 0 ∧ 2 ^ 64 - 1 ≤ align_up (2 ^ 64 - 1) 2 ∧
       align_up (2 ^ 64 - 1) 2 < 2 ^ 64 - 1 + 2) := by
  decide

/-- C1 (amended): for every state and every power-of-two alignment, a
successful allocation returns the aligned cursor align_up(next, align)
and, provided align_up(next, align) + size does not overflow 2 ^ 64,
sets next to exactly that sum, leaving heap_start and heap_end
unchanged. -/
theorem alloc_success_spec (s : BumpAllocator) (size align k : Nat) (hk : align = 2 ^ k)
    (hov : align_up s.next align + size < usizeMod)
    (p : Nat) (s' : BumpAllocator) (h : s.alloc size align = (some p, s')) :
    p = align_up s.next align ∧ s'.next = align_up s.next align + size ∧
    s'.heap_start = s.heap_start ∧ s'.heap_end = s.heap_end := by
  subst hk
  obtain ⟨h1, h2, _⟩ := alloc_success_core s size k p s' hov h
  rw [h2]
  exact ⟨h1, rfl, rfl, rfl⟩

/-- C1 witness: the amended statement on a 16-byte heap based at 0x1000,
allocating 3 bytes with alignment 4. -/
theorem alloc_success_spec_witness :
    (0x1000 : Nat) = align_up 0x1000 4 ∧
    (BumpAllocator.mk 0x1000 0x1010 0x1003).next = align_up 0x1000 4 + 3 ∧
    (BumpAllocator.mk 0x1000 0x1010 0x1003).heap_start =
      (BumpAllocator.mk 0x1000 0x1010 0x1000).heap_start ∧
    (BumpAllocator.mk 0x1000 0x1010 0x1003).heap_end =
      (BumpAllocator.mk 0x1000 0x1010 0x1000).heap_end :=
  alloc_success_spec ⟨0x1000, 0x1010, 0x1000⟩ 3 4 2 (by decide) (by decide)
    0x1000 ⟨0x1000, 0x1010, 0x1003⟩ (by decide)

/-- C1 counterexample: with the cursor at the top of the address space,
alignment 1 = 2 ^ 0 and size 1, the allocation succeeds but the wrapping
usize addition sets next to 0, not to alloc_start + size. -/
theorem alloc_success_spec_counterexample :
    (1 : Nat) = 2 ^ 0 ∧
    (BumpAllocator.alloc ⟨0, 10, usizeMod - 1⟩ 1 1).1 = some (align_up (usizeMod - 1) 1) ∧
    (BumpAllocator.alloc ⟨0, 10, usizeMod - 1⟩ 1 1).2.next ≠ align_up (usizeMod - 1) 1 + 1 := by
  decide

/-- C2 (amended): when align_up(next, align) + size does not overflow
2 ^ 64, allocate fails exactly when the aligned block would end past
heap_end; on failure the state is returned unchanged, and the identical
request re-issued immediately after fails as well. -/
theorem alloc_fail_spec (s : BumpAllocator) (size align k : Nat) (hk : align = 2 ^ k)
    (hov : align_up s.next align + size < usizeMod) :
    ((s.alloc size align).1 = none ↔ s.heap_end < align_up s.next align + size) ∧
    ((s.alloc size align).1 = none → (s.alloc size align).2 = s) ∧
    ((s.alloc size align).1 = none →
      (((s.alloc size align).2).alloc size align).1 = none) := by
  subst hk
  rw [alloc_eq, Nat.mod_eq_of_lt hov]
  by_cases hc : s.heap_end < align_up s.next (2 ^ k) + size
  · rw [if_pos hc]
    refine ⟨by simp [hc], fun _ => rfl, fun _ => ?_⟩
    show (s.alloc size (2 ^ k)).1 = none
    rw [alloc_eq, Nat.mod_eq_of_lt hov, if_pos hc]
  · rw [if_neg hc]
    simp [hc]

/-- C2 witness: the amended statement on a 10-byte heap based at 0, where
an 11-byte request fails. -/
theorem alloc_fail_spec_witness :
    ((BumpAllocator.alloc ⟨0, 10, 0⟩ 11 1).1 = none ↔ 10 < align_up 0 1 + 11) ∧
    ((BumpAllocator.alloc ⟨0, 10, 0⟩ 11 1).1 = none →
      (BumpAllocator.alloc ⟨0, 10, 0⟩ 11 1).2 = ⟨0, 10, 0⟩) ∧
    ((BumpAllocator.alloc ⟨0, 10, 0⟩ 11 1).1 = none →
      (((BumpAllocator.alloc ⟨0, 10, 0⟩ 11 1).2).alloc 11 1).1 = none) :=
  alloc_fail_spec ⟨0, 10, 0⟩ 11 1 0 (by decide) (by decide)

/-- C2 counterexample: with the cursor at the top of the address space the
claimed equivalence fails: align_up(next, 1) + 1 exceeds heap_end = 10,
yet the wrapping addition makes the allocation succeed. -/
theorem alloc_fail_spec_counterexample :
    (1 : Nat) = 2 ^ 0 ∧
    10 < align_up (usizeMod - 1) 1 + 1 ∧
    (BumpAllocator.alloc ⟨0, 10, usizeMod - 1⟩ 1 1).1 ≠ none := by
  decide

/-- C8: dealloc is a no-op: it returns the state unchanged (in
particular next is unchanged), any number of iterated calls leaves the
state unchanged, and an alloc issued immediately after a dealloc returns
exactly what it would have returned without it. -/
theorem dealloc_noop (s : BumpAllocator) (ptr size align n size' align' : Nat) :
    s.dealloc ptr size align = s ∧
    (s.dealloc ptr size align).next = s.next ∧
    (s.dealloc ptr size align).alloc size' align' = s.alloc size' align' ∧
    (fun t => BumpAllocator.dealloc t ptr size align)^[n] s = s := by
  refine ⟨rfl, rfl, rfl, ?_⟩
  induction n with
  | zero => rfl
  | succ m ih => rw [Function.iterate_succ_apply]; exact ih

/-- C9 (amended): a zero-size request with power-of-two alignment
succeeds exactly when the aligned cursor does not pass heap_end; on
success it returns align_up(next, align) and advances next to that same
address.  (As stated the claim is false: aligning the cursor can push it
past heap_end, in which case the zero-size request fails.) -/
theorem alloc_zero_spec (s : BumpAllocator) (align k : Nat) (_hk : align = 2 ^ k)
    (_hinv : AllocInv s) :
    ((s.alloc 0 align).1 ≠ none ↔ align_up s.next align ≤ s.heap_end) ∧
    (align_up s.next align ≤ s.heap_end →
      (s.alloc 0 align).1 = some (align_up s.next align) ∧
      (s.alloc 0 align).2.next = align_up s.next align) := by
  have h1 : align_up s.next align < usizeMod := align_up_lt_usizeMod _ _
  rw [alloc_eq, Nat.add_zero, Nat.mod_eq_of_lt h1]
  by_cases hc : s.heap_end < align_up s.next align
  · rw [if_pos hc]
    exact ⟨⟨fun h => absurd rfl h, fun hle => absurd hle (Nat.not_le.mpr hc)⟩,
      fun hle => absurd hle (Nat.not_le.mpr hc)⟩
  · rw [if_neg hc]
    exact ⟨⟨fun _ => Nat.le_of_not_lt hc, fun _ h => Option.noConfusion h⟩,
      fun _ => ⟨rfl, rfl⟩⟩

/-- C9 witness: the amended statement at next = 3, align = 4 on a 5-byte
heap based at 0. -/
theorem alloc_zero_spec_witness :
    ((BumpAllocator.alloc ⟨0, 5, 3⟩ 0 4).1 ≠ none ↔ align_up 3 4 ≤ 5) ∧
    (align_up 3 4 ≤ 5 →
      (BumpAllocator.alloc ⟨0, 5, 3⟩ 0 4).1 = some (align_up 3 4) ∧
      (BumpAllocator.alloc ⟨0, 5, 3⟩ 0 4).2.next = align_up 3 4) :=
  alloc_zero_spec ⟨0, 5, 3⟩ 4 2 (by decide) (by decide)

/-- C9 counterexample: with heap_start = 0, heap_end = 5 and next = 5 the
invariant holds, yet allocate(0, 4) fails because the aligned cursor 8
exceeds heap_end. -/
theorem alloc_zero_spec_counterexample :
    (4 : Nat) = 2 ^ 2 ∧ AllocInv ⟨0, 5, 5⟩ ∧
    (BumpAllocator.alloc ⟨0, 5, 5⟩ 0 4).1 = none := by
  decide

/-- C10: the failure sentinel of alloc is the null address 0, and for
any state satisfying the allocator invariant with heap_start at least 1
and no overflow in the alignment computation, the pointer value returned
by alloc is 0 exactly when the allocation failed. -/
theorem alloc_null_iff_fail (s : BumpAllocator) (size align k : Nat) (hk : align = 2 ^ k)
    (hinv : AllocInv s) (hhs : 1 ≤ s.heap_start)
    (hov : s.next + align - 1 < usizeMod) :
    ptrVal none = 0 ∧
    (ptrVal (s.alloc size align).1 = 0 ↔ (s.alloc size align).1 = none) := by
  subst hk
  obtain ⟨hi1, _⟩ := hinv
  refine ⟨rfl, ?_⟩
  rw [alloc_eq]
  by_cases hc : s.heap_end < (align_up s.next (2 ^ k) + size) % usizeMod
  · rw [if_pos hc]
    simp [ptrVal]
  · rw [if_neg hc]
    simp only [ptrVal]
    have hge : s.next ≤ align_up s.next (2 ^ k) := by
      rw [align_up_pow2_exact s.next k hov]
      exact le_roundUp _ _ (Nat.pos_pow_of_pos k (by omega))
    simp only [Option.some_ne_none, iff_false]
    omega

/-- C10 witness: the statement on a 16-byte heap based at 0x1000 with a
3-byte aligned request, where the allocation succeeds. -/
theorem alloc_null_iff_fail_witness :
    ptrVal none = 0 ∧
    (ptrVal (BumpAllocator.alloc ⟨0x1000, 0x1010, 0x1000⟩ 3 4).1 = 0 ↔
      (BumpAllocator.alloc ⟨0x1000, 0x1010, 0x1000⟩ 3 4).1 = none) :=
  alloc_null_iff_fail ⟨0x1000, 0x1010, 0x1000⟩ 3 4 2 (by decide) (by decide)
    (by decide) (by decide)

/-- C4 (amended): heap_start ≤ next ≤ heap_end holds after construction,
is preserved by dealloc always and by alloc with power-of-two alignment
provided neither the alignment computation nor the block end overflows
2 ^ 64, and under the same proviso next never decreases.  (At overflow
the wrapping arithmetic can drop next below heap_start.) -/
theorem inv_preserved (hs hsz : Nat) (s : BumpAllocator) (size align k ptr dsz dal : Nat)
    (hk : align = 2 ^ k) (hinv : AllocInv s)
    (h1 : s.next + align - 1 < usizeMod)
    (h2 : align_up s.next align + size < usizeMod) :
    AllocInv (BumpAllocator.new hs hsz) ∧
    AllocInv (s.alloc size align).2 ∧
    s.next ≤ (s.alloc size align).2.next ∧
    AllocInv (s.dealloc ptr dsz dal) ∧
    (s.dealloc ptr dsz dal).next = s.next := by
  subst hk
  obtain ⟨hi1, hi2⟩ := hinv
  have hnew : AllocInv (BumpAllocator.new hs hsz) := ⟨Nat.le_refl _, Nat.le_add_right _ _⟩
  have hge : s.next ≤ align_up s.next (2 ^ k) := by
    rw [align_up_pow2_exact s.next k h1]
    exact le_roundUp _ _ (Nat.pos_pow_of_pos k (by omega))
  rw [alloc_eq, Nat.mod_eq_of_lt h2]
  by_cases hc : s.heap_end < align_up s.next (2 ^ k) + size
  · rw [if_pos hc]
    exact ⟨hnew, ⟨hi1, hi2⟩, Nat.le_refl _, ⟨hi1, hi2⟩, rfl⟩
  · rw [if_neg hc]
    refine ⟨hnew, ⟨?_, ?_⟩, ?_, ⟨hi1, hi2⟩, rfl⟩
    · show s.heap_start ≤ align_up s.next (2 ^ k) + size
      omega
    · show align_up s.next (2 ^ k) + size ≤ s.heap_end
      omega
    · show s.next ≤ align_up s.next (2 ^ k) + size
      omega

/-- C4 witness: the amended statement on the 16-byte heap at 0x1000 with
cursor 0x1003, a (5, 4) request and a dealloc. -/
theorem inv_preserved_witness :
    AllocInv (BumpAllocator.new 0 16) ∧
    AllocInv (BumpAllocator.alloc ⟨0x1000, 0x1010, 0x1003⟩ 5 4).2 ∧
    (0x1003 : Nat) ≤ (BumpAllocator.alloc ⟨0x1000, 0x1010, 0x1003⟩ 5 4).2.next ∧
    AllocInv (BumpAllocator.dealloc ⟨0x1000, 0x1010, 0x1003⟩ 0x1000 3 4) ∧
    (BumpAllocator.dealloc ⟨0x1000, 0x1010, 0x1003⟩ 0x1000 3 4).next = 0x1003 :=
  inv_preserved 0 16 ⟨0x1000, 0x1010, 0x1003⟩ 5 4 2 0x1000 3 4 (by decide) (by decide)
    (by decide) (by decide)

/-- C4 counterexample: a state satisfying the invariant from which an
alloc with the power-of-two alignment 2 ^ 63 wraps the cursor to 0,
breaking heap_start ≤ next and decreasing next. -/
theorem inv_preserved_counterexample :
    AllocInv ⟨2 ^ 63, 2 ^ 63 + 100, 2 ^ 63 + 1⟩ ∧
    ¬ AllocInv (BumpAllocator.alloc ⟨2 ^ 63, 2 ^ 63 + 100, 2 ^ 63 + 1⟩ 0 (2 ^ 63)).2 ∧
    (BumpAllocator.alloc ⟨2 ^ 63, 2 ^ 63 + 100, 2 ^ 63 + 1⟩ 0 (2 ^ 63)).2.next
      < 2 ^ 63 + 1 := by
  decide

/-- C5 (amended): under the allocator invariant and absent 64-bit
overflow, every successful allocation of a positive size returns a base
address inside the closed-open range from heap_start to heap_end, with
the whole block ending at or before heap_end.  (Positivity is required:
a zero-size success can sit exactly at heap_end.) -/
theorem alloc_bounds (s : BumpAllocator) (size align k p : Nat) (s' : BumpAllocator)
    (hk : align = 2 ^ k) (hinv : AllocInv s) (hsz : 1 ≤ size)
    (h1 : s.next + align - 1 < usizeMod)
    (h2 : align_up s.next align + size < usizeMod)
    (h : s.alloc size align = (some p, s')) :
    s.heap_start ≤ p ∧ p < s.heap_end ∧ p + size ≤ s.heap_end := by
  subst hk
  obtain ⟨hp, hs', hend⟩ := alloc_success_core s size k p s' h2 h
  have hge : s.next ≤ align_up s.next (2 ^ k) := by
    rw [align_up_pow2_exact s.next k h1]
    exact le_roundUp _ _ (Nat.pos_pow_of_pos k (by omega))
  obtain ⟨hi1, hi2⟩ := hinv
  subst hp
  omega

/-- C5 witness: the amended statement for the (5, 4) request on the
16-byte heap at 0x1000 with cursor 0x1003, which returns 0x1004. -/
theorem alloc_bounds_witness :
    (0x1000 : Nat) ≤ 0x1004 ∧ (0x1004 : Nat) < 0x1010 ∧ (0x1004 : Nat) + 5 ≤ 0x1010 :=
  alloc_bounds ⟨0x1000, 0x1010, 0x1003⟩ 5 4 2 0x1004 ⟨0x1000, 0x1010, 0x1009⟩
    (by decide) (by decide) (by decide) (by decide) (by decide) (by decide)

/-- C5 counterexample: on a 10-byte heap at 100, filling the heap and
then allocating size 0 succeeds and returns 110, which does not lie in
the claimed closed-open range from heap_start to heap_end. -/
theorem alloc_bounds_counterexample :
    (BumpAllocator.alloc (BumpAllocator.new 100 10) 10 1).1 = some 100 ∧
    ((BumpAllocator.alloc (BumpAllocator.new 100 10) 10 1).2.alloc 0 1).1 = some 110 ∧
    ¬ (110 < (BumpAllocator.new 100 10).heap_end) := by
  decide

/-! Runs of the allocator over request sequences. -/

theorem alloc_snd_of_none (s : BumpAllocator) (size align : Nat) (s' : BumpAllocator)
    (h : s.alloc size align = (none, s')) : s' = s := by
  rw [alloc_eq] at h
  by_cases hc : s.heap_end < (align_up s.next align + size) % usizeMod
  · rw [if_pos hc] at h
    injection h with h1 h2
    exact h2.symm
  · rw [if_neg hc] at h
    cases h

theorem allocSeq_bounds (reqs : List (Nat × Nat)) :
    ∀ s : BumpAllocator, AllocInv s →
    (∀ r ∈ reqs, ∃ k, r.2 = 2 ^ k ∧ s.heap_end + r.2 + r.1 ≤ usizeMod) →
    (∀ q ∈ allocSeq s reqs, s.next ≤ q.1 ∧ q.1 + q.2 ≤ s.heap_end) ∧
    List.Pairwise (fun q q' => q.1 + q.2 ≤ q'.1) (allocSeq s reqs) := by
  induction reqs with
  | nil =>
    intro s _ _
    exact ⟨fun q hq => absurd hq (List.not_mem_nil q), List.Pairwise.nil⟩
  | cons r rest ih =>
    intro s hinv hreqs
    obtain ⟨k, hk, hbound⟩ := hreqs r (List.mem_cons_self r rest)
    rcases hres : BumpAllocator.alloc s r.1 r.2 with ⟨o, s'⟩
    cases o with
    | none =>
      have hss : s' = s := alloc_snd_of_none s r.1 r.2 s' hres
      rw [hss] at hres
      simp only [allocSeq, hres]
      exact ih s hinv (fun q hq => hreqs q (List.mem_cons_of_mem r hq))
    | some p =>
      simp only [allocSeq, hres]
      rw [hk] at hres hbound
      have hpos : 0 < 2 ^ k := Nat.pos_pow_of_pos k (by omega)
      obtain ⟨hi1, hi2⟩ := hinv
      have h1 : s.next + 2 ^ k - 1 < usizeMod := by omega
      have hgeA : s.next ≤ align_up s.next (2 ^ k) := by
        rw [align_up_pow2_exact s.next k h1]
        exact le_roundUp _ _ hpos
      have hltA : align_up s.next (2 ^ k) < s.next + 2 ^ k := by
        rw [align_up_pow2_exact s.next k h1]
        exact roundUp_lt _ _ hpos
      have h2 : align_up s.next (2 ^ k) + r.1 < usizeMod := by omega
      obtain ⟨hp, hs', hend⟩ := alloc_success_core s r.1 k p s' h2 hres
      subst hp
      have hinv' : AllocInv s' := by
        rw [hs']
        exact ⟨Nat.le_trans hi1 (Nat.le_trans hgeA (Nat.le_add_right _ _)), hend⟩
      have hreqs' : ∀ q ∈ rest, ∃ k', q.2 = 2 ^ k' ∧ s'.heap_end + q.2 + q.1 ≤ usizeMod := by
        intro q hq
        obtain ⟨k', hk', hb⟩ := hreqs q (List.mem_cons_of_mem r hq)
        refine ⟨k', hk', ?_⟩
        rw [hs']
        exact hb
      obtain ⟨hb', hp'⟩ := ih s' hinv' hreqs'
      constructor
      · intro q hq
        rcases List.mem_cons.mp hq with hq | hq
        · subst hq
          exact ⟨hgeA, hend⟩
        · obtain ⟨hql, hqr⟩ := hb' q hq
          rw [hs'] at hql hqr
          have h3 : align_up s.next (2 ^ k) + r.1 ≤ q.1 := hql
          have h4 : q.1 + q.2 ≤ s.heap_end := hqr
          exact ⟨by omega, h4⟩
      · refine List.Pairwise.cons ?_ hp'
        intro q hq
        obtain ⟨hql, _⟩ := hb' q hq
        rw [hs'] at hql
        exact hql

/-- C7 (amended): from any state satisfying the allocator invariant, and
for any request sequence of power-of-two alignments small enough that no
intermediate sum reaches 2 ^ 64 (heap_end + align + size ≤ 2 ^ 64 per
request), every successful allocation's base address is at least every
earlier successful base address plus that earlier block's size.  (At
overflow the wrapping arithmetic can move the cursor backwards.) -/
theorem alloc_monotone_seq (s : BumpAllocator) (reqs : List (Nat × Nat))
    (hinv : AllocInv s)
    (hreqs : ∀ r ∈ reqs, ∃ k, r.2 = 2 ^ k ∧ s.heap_end + r.2 + r.1 ≤ usizeMod) :
    List.Pairwise (fun q q' => q.1 + q.2 ≤ q'.1) (allocSeq s reqs) :=
  (allocSeq_bounds reqs s hinv hreqs).2

/-- C7 witness: the amended statement for requests (3, 4) then (5, 4) on
a fresh 16-byte heap at 0x1000. -/
theorem alloc_monotone_seq_witness :
    List.Pairwise (fun q q' => q.1 + q.2 ≤ q'.1)
      (allocSeq (BumpAllocator.new 0x1000 16) [(3, 4), (5, 4)]) :=
  alloc_monotone_seq (BumpAllocator.new 0x1000 16) [(3, 4), (5, 4)]
    (by exact ⟨Nat.le_refl _, Nat.le_add_right _ _⟩)
    (by
      intro r hr
      rcases List.mem_cons.mp hr with h | hr2
      · subst h; exact ⟨2, rfl, by decide⟩
      · rcases List.mem_cons.mp hr2 with h | hr3
        · subst h; exact ⟨2, rfl, by decide⟩
        · exact absurd hr3 (List.not_mem_nil r))

/-- C7 counterexample: from a fresh heap of 200 bytes based at 2 ^ 63,
the power-of-two requests (1, 1) then (0, 2 ^ 63) both succeed, yet the
second base address 0 is smaller than the first base address plus its
size. -/
theorem alloc_monotone_seq_counterexample :
    allocSeq (BumpAllocator.new (2 ^ 63) 200) [(1, 1), (0, 2 ^ 63)] =
      [(2 ^ 63, 1), (0, 0)] ∧ (0 : Nat) < 2 ^ 63 + 1 := by
  decide

/-- C6 (amended): from a freshly constructed allocator, and for any
request sequence of power-of-two alignments small enough that no
intermediate sum reaches 2 ^ 64 (heap_start + heap_size + align + size
≤ 2 ^ 64 per request), the intervals of any two successful allocations
do not intersect.  (At overflow the wrapping arithmetic can hand out the
same region twice.) -/
theorem alloc_no_overlap (hs hsz : Nat) (reqs : List (Nat × Nat))
    (hreqs : ∀ r ∈ reqs, ∃ k, r.2 = 2 ^ k ∧ hs + hsz + r.2 + r.1 ≤ usizeMod) :
    List.Pairwise
      (fun q q' => ∀ n, ¬ (q.1 ≤ n ∧ n < q.1 + q.2 ∧ q'.1 ≤ n ∧ n < q'.1 + q'.2))
      (allocSeq (BumpAllocator.new hs hsz) reqs) := by
  have h := (allocSeq_bounds reqs (BumpAllocator.new hs hsz)
    ⟨Nat.le_refl _, Nat.le_add_right _ _⟩
    (fun r hr => by
      obtain ⟨k, hk, hb⟩ := hreqs r hr
      exact ⟨k, hk, hb⟩)).2
  refine h.imp ?_
  intro a b hab
  rintro n ⟨hn1, hn2, hn3, hn4⟩
  omega

/-- C6 witness: the amended statement for requests (3, 4), (5, 4) and a
failing (100, 1) on a fresh 16-byte heap at 0x1000. -/
theorem alloc_no_overlap_witness :
    List.Pairwise
      (fun q q' => ∀ n, ¬ (q.1 ≤ n ∧ n < q.1 + q.2 ∧ q'.1 ≤ n ∧ n < q'.1 + q'.2))
      (allocSeq (BumpAllocator.new 0x1000 16) [(3, 4), (5, 4), (100, 1)]) :=
  alloc_no_overlap 0x1000 16 [(3, 4), (5, 4), (100, 1)]
    (by
      intro r hr
      rcases List.mem_cons.mp hr with h | hr2
      · subst h; exact ⟨2, rfl, by decide⟩
      · rcases List.mem_cons.mp hr2 with h | hr3
        · subst h; exact ⟨2, rfl, by decide⟩
        · rcases List.mem_cons.mp hr3 with h | hr4
          · subst h; exact ⟨0, rfl, by decide⟩
          · exact absurd hr4 (List.not_mem_nil r))

/-- C6 counterexample: from a fresh heap of 200 bytes based at 2 ^ 63,
the power-of-two request sequence (1, 1), (0, 2 ^ 63), (2 ^ 63 + 1, 1)
produces successful allocations (2 ^ 63, 1) and (0, 2 ^ 63 + 1) with
distinct base addresses whose intervals both contain the address 2 ^ 63. -/
theorem alloc_no_overlap_counterexample :
    allocSeq (BumpAllocator.new (2 ^ 63) 200) [(1, 1), (0, 2 ^ 63), (2 ^ 63 + 1, 1)] =
      [(2 ^ 63, 1), (0, 0), (0, 2 ^ 63 + 1)] ∧
    (2 ^ 63 : Nat) ≠ 0 ∧
    (2 ^ 63 : Nat) ≤ 2 ^ 63 ∧ (2 ^ 63 : Nat) < 2 ^ 63 + 1 ∧
    (0 : Nat) ≤ 2 ^ 63 ∧ (2 ^ 63 : Nat) < 0 + (2 ^ 63 + 1) := by
  decide

